import Mathlib

/-!
Verification of the organization-admin layer of the cpmsnew repository.

The embedding models, over Lean lists of characters:
- the core_values text/list transformation of OrganizationAdminForm
  (src/plan/organizations/admin.py, clean and the constructor),
- the computed display helpers of TeamDeskPlanAdmin and
  TeamDeskPlanReviewAdmin,
- the operation lists of migrations 0013 and 0016.

Python strings are modelled as List Char; Python attribute access on a
possibly-None relation is modelled with Except, error standing for the
AttributeError a None dereference raises.
-/

namespace Cpms

/-- Python strings are modelled as lists of characters. -/
abbrev Str := List Char

/-- Whitespace characters stripped by the Python str.strip() method
(the ASCII ones: space, tab, newline, carriage return, vertical tab,
form feed). -/
def isPySpace (c : Char) : Bool :=
  c = ' ' || c = '\t' || c = '\n' || c = '\r' || c = '\x0b' || c = '\x0c'

/-- Model of the Python str.strip() method: drop whitespace from both
ends of the string. -/
def pyStrip (s : Str) : Str :=
  ((s.dropWhile isPySpace).reverse.dropWhile isPySpace).reverse

/-- Model of the Python expression s.split(chr(10)): split on each
newline character, keeping empty pieces, so that the result of splitting
the empty string is a singleton list holding the empty string. -/
def pySplitNl : Str → List Str
  | [] => [[]]
  | c :: cs =>
    if c = '\n' then [] :: pySplitNl cs
    else
      match pySplitNl cs with
      | [] => [[c]]
      | t :: ts => (c :: t) :: ts

/-- Model of the Python expression chr(10).join(xs). -/
def pyJoinNl : List Str → Str
  | [] => []
  | [x] => x
  | x :: y :: ys => x ++ '\n' :: pyJoinNl (y :: ys)

/-- Embedding of the core_values computation in
OrganizationAdminForm.clean (src/plan/organizations/admin.py lines
33-37): if the text is truthy (non-empty), split on newline, strip each
piece and keep the stripped pieces that are truthy; otherwise the empty
list.  The Python comprehension keeps value.strip() exactly when
value.strip() is truthy, which is the same as mapping strip and then
filtering out empty results. -/
def cleanCoreValues (s : Str) : List Str :=
  if s ≠ [] then ((pySplitNl s).map pyStrip).filter (fun v => v ≠ [])
  else []

/-- Modelled from the spec wording of the transformation (section 4.1):
split the input on newline, trim each line, discard lines empty after
trimming, keep the survivors in order.  Used to compare the spec
formula with the code in cleanCoreValues, which guards on truthiness of
the input first. -/
def specSplitTrimDrop (s : Str) : List Str :=
  ((pySplitNl s).map pyStrip).filter (fun v => v ≠ [])

/-! Basic lemmas about the split, strip and join models. -/

theorem pySplitNl_ne_nil (s : Str) : pySplitNl s ≠ [] := by
  cases s with
  | nil => simp [pySplitNl]
  | cons c cs =>
    simp only [pySplitNl]
    by_cases h : c = '\n'
    · simp [h]
    · simp only [h, if_false]
      cases pySplitNl cs <;> simp

theorem mem_of_mem_pySplitNl {s : Str} {t : Str} {c : Char}
    (ht : t ∈ pySplitNl s) (hc : c ∈ t) : c ∈ s := by
  induction s generalizing t with
  | nil =>
    simp [pySplitNl] at ht
    subst ht
    simp at hc
  | cons a as ih =>
    simp only [pySplitNl] at ht
    by_cases ha : a = '\n'
    · simp only [ha, if_true, List.mem_cons] at ht
      rcases ht with h | h
      · subst h; simp at hc
      · exact List.mem_cons_of_mem _ (ih h hc)
    · simp only [ha, if_false] at ht
      rcases hsp : pySplitNl as with _ | ⟨u, us⟩
      · exact absurd hsp (pySplitNl_ne_nil as)
      · rw [hsp] at ht
        rcases List.mem_cons.mp ht with h | h
        · subst h
          rcases List.mem_cons.mp hc with h | h
          · exact h ▸ List.mem_cons_self a as
          · exact List.mem_cons_of_mem _ (ih (hsp ▸ List.mem_cons_self u us) h)
        · exact List.mem_cons_of_mem _ (ih (hsp ▸ List.mem_cons_of_mem u h) hc)

theorem nl_not_mem_of_mem_pySplitNl {s : Str} {t : Str}
    (ht : t ∈ pySplitNl s) : '\n' ∉ t := by
  induction s generalizing t with
  | nil =>
    simp [pySplitNl] at ht
    subst ht; simp
  | cons a as ih =>
    simp only [pySplitNl] at ht
    by_cases ha : a = '\n'
    · simp only [ha, if_true, List.mem_cons] at ht
      rcases ht with h | h
      · subst h; simp
      · exact ih h
    · simp only [ha, if_false] at ht
      rcases hsp : pySplitNl as with _ | ⟨u, us⟩
      · exact absurd hsp (pySplitNl_ne_nil as)
      · rw [hsp] at ht
        rcases List.mem_cons.mp ht with h | h
        · subst h
          intro hmem
          rcases List.mem_cons.mp hmem with h | h
          · exact ha h.symm
          · exact ih (hsp ▸ List.mem_cons_self u us) h
        · exact ih (hsp ▸ List.mem_cons_of_mem u h)

theorem dropWhile_idem (p : Char → Bool) (l : Str) :
    (l.dropWhile p).dropWhile p = l.dropWhile p := by
  induction l with
  | nil => simp
  | cons a l ih =>
    by_cases h : p a
    · simp [List.dropWhile_cons, h, ih]
    · simp [List.dropWhile_cons, h]

theorem mem_of_mem_pyStrip {l : Str} {c : Char} (h : c ∈ pyStrip l) :
    c ∈ l := by
  unfold pyStrip at h
  rw [List.mem_reverse] at h
  have h1 := (List.dropWhile_sublist (l := (l.dropWhile isPySpace).reverse)
    (p := isPySpace)).subset h
  rw [List.mem_reverse] at h1
  exact (List.dropWhile_sublist (p := isPySpace)).subset h1

theorem pyStrip_all_space {l : Str} (h : ∀ c ∈ l, isPySpace c) :
    pyStrip l = [] := by
  unfold pyStrip
  have h1 : l.dropWhile isPySpace = [] := List.dropWhile_eq_nil_iff.mpr h
  rw [h1]
  simp

/-- The head of a dropWhile result never satisfies the predicate. -/
theorem dropWhile_head_false {p : Char → Bool} {l : Str} {a : Char}
    {t : Str} (h : l.dropWhile p = a :: t) : p a = false := by
  induction l with
  | nil => simp at h
  | cons b l ih =>
    by_cases hb : p b
    · rw [List.dropWhile_cons_of_pos hb] at h
      exact ih h
    · rw [List.dropWhile_cons_of_neg hb] at h
      cases h
      exact Bool.of_not_eq_true hb

theorem pyStrip_idem (l : Str) : pyStrip (pyStrip l) = pyStrip l := by
  unfold pyStrip
  generalize hm : l.dropWhile isPySpace = m
  have hmm : m.dropWhile isPySpace = m := by
    rw [← hm]; exact dropWhile_idem _ _
  set r := (m.reverse.dropWhile isPySpace).reverse with hr
  have hrm : r <+: m := by
    rw [hr]
    have hs : m.reverse.dropWhile isPySpace <:+ m.reverse :=
      List.dropWhile_suffix _
    have := List.reverse_prefix.mpr hs
    rwa [List.reverse_reverse] at this
  have hlr : r.dropWhile isPySpace = r := by
    cases hcase : r with
    | nil => simp
    | cons b t =>
      obtain ⟨u, hu⟩ := hrm
      rw [hcase] at hu
      have hb : isPySpace b = false := by
        have hmmu : m.dropWhile isPySpace = m := hmm
        rw [← hu] at hmmu
        rcases hpb : isPySpace b with _ | _
        · rfl
        · rw [List.cons_append, List.dropWhile_cons_of_pos hpb] at hmmu
          have hlen := congrArg List.length hmmu
          simp at hlen
          have hle := (List.dropWhile_sublist (p := isPySpace)
            (l := t ++ u)).length_le
          simp at hle
          omega
      rw [List.dropWhile_cons_of_neg (by simp [hb])]
  rw [hlr, hr, List.reverse_reverse, dropWhile_idem]

theorem pySplitNl_of_not_mem {l : Str} (h : '\n' ∉ l) :
    pySplitNl l = [l] := by
  induction l with
  | nil => simp [pySplitNl]
  | cons a as ih =>
    have ha : a ≠ '\n' := fun hc => h (hc ▸ List.mem_cons_self a as)
    have has : '\n' ∉ as := fun hc => h (List.mem_cons_of_mem a hc)
    simp only [pySplitNl, ha, if_false]
    rw [ih has]

theorem pySplitNl_append_nl {l : Str} (r : Str) (h : '\n' ∉ l) :
    pySplitNl (l ++ '\n' :: r) = l :: pySplitNl r := by
  induction l with
  | nil => simp [pySplitNl]
  | cons a as ih =>
    have ha : a ≠ '\n' := fun hc => h (hc ▸ List.mem_cons_self a as)
    have has : '\n' ∉ as := fun hc => h (List.mem_cons_of_mem a hc)
    simp only [List.cons_append, pySplitNl, ha, if_false, List.append_eq]
    rw [ih has]

theorem pySplitNl_pyJoinNl {xs : List Str} (hne : xs ≠ [])
    (h : ∀ x ∈ xs, '\n' ∉ x) : pySplitNl (pyJoinNl xs) = xs := by
  induction xs with
  | nil => exact absurd rfl hne
  | cons x ys ih =>
    cases ys with
    | nil =>
      show pySplitNl (pyJoinNl [x]) = [x]
      simp only [pyJoinNl]
      exact pySplitNl_of_not_mem (h x (List.mem_cons_self x []))
    | cons y zs =>
      show pySplitNl (x ++ '\n' :: pyJoinNl (y :: zs)) = x :: y :: zs
      rw [pySplitNl_append_nl _ (h x (List.mem_cons_self x _))]
      rw [ih (by simp) (fun z hz => h z (List.mem_cons_of_mem x hz))]

/-- The code agrees with the spec formula on every input: the only
difference is the truthiness guard on the empty string, and the spec
formula also yields the empty list there. -/
theorem cleanCoreValues_eq_spec (s : Str) :
    cleanCoreValues s = specSplitTrimDrop s := by
  unfold cleanCoreValues specSplitTrimDrop
  by_cases h : s = []
  · subst h
    simp [pySplitNl, pyStrip]
  · simp [h]

/-- Every element of the cleaned list is non-empty, already stripped,
and contains no newline. -/
theorem mem_cleanCoreValues {s : Str} {y : Str}
    (hy : y ∈ cleanCoreValues s) :
    y ≠ [] ∧ pyStrip y = y ∧ '\n' ∉ y := by
  rw [cleanCoreValues_eq_spec] at hy
  unfold specSplitTrimDrop at hy
  have hy2 := List.mem_of_mem_filter hy
  have hyne : y ≠ [] := by
    have := List.of_mem_filter hy
    simpa using this
  obtain ⟨t, ht, hts⟩ := List.mem_map.mp hy2
  refine ⟨hyne, ?_, ?_⟩
  · rw [← hts, pyStrip_idem]
  · intro hmem
    rw [← hts] at hmem
    exact nl_not_mem_of_mem_pySplitNl ht (mem_of_mem_pyStrip hmem)

/-- C1: for every input string, the save-time transformation in
OrganizationAdminForm.clean produces exactly the list described by the
spec: split on newline, trim each line, discard lines that are empty
after trimming, keep survivors in order with duplicates and casing
intact. -/
theorem clean_matches_spec_formula (s : Str) :
    cleanCoreValues s = specSplitTrimDrop s :=
  cleanCoreValues_eq_spec s

/-- C3: an input consisting only of whitespace characters (including
the empty string and non-empty whitespace-only strings) cleans to the
empty list. -/
theorem clean_whitespace_only_eq_nil (s : Str)
    (h : ∀ c ∈ s, isPySpace c) : cleanCoreValues s = [] := by
  rw [cleanCoreValues_eq_spec]
  unfold specSplitTrimDrop
  rw [List.filter_eq_nil_iff]
  intro y hy
  obtain ⟨t, ht, hts⟩ := List.mem_map.mp hy
  have : pyStrip t = [] :=
    pyStrip_all_space (fun c hc => h c (mem_of_mem_pySplitNl ht hc))
  simp [← hts, this]

/-- Witness for C3 at the concrete whitespace-only truthy input of two
spaces, a tab and a space. -/
theorem clean_whitespace_only_eq_nil_witness :
    (∀ c ∈ ("  \t " : String).toList, isPySpace c) ∧
      cleanCoreValues ("  \t " : String).toList = [] :=
  ⟨by decide, clean_whitespace_only_eq_nil _ (by decide)⟩

/-- C4: on the concrete input of the spec example the transformation
yields the two trimmed values, and joining them back gives the
two-line text. -/
theorem clean_spec_example :
    cleanCoreValues ("  Integrity \nExcellence\n\n  " : String).toList =
      [("Integrity" : String).toList, ("Excellence" : String).toList] ∧
    pyJoinNl [("Integrity" : String).toList,
      ("Excellence" : String).toList] =
      ("Integrity\nExcellence" : String).toList := by
  constructor
  · rfl
  · rfl

/-- C5: applying the text-to-list transformation, joining with
newlines, and applying the transformation again gives back the first
list, for every input string. -/
theorem clean_join_clean (s : Str) :
    cleanCoreValues (pyJoinNl (cleanCoreValues s)) = cleanCoreValues s := by
  rcases hys : cleanCoreValues s with _ | ⟨y, ys⟩
  · simp [pyJoinNl, cleanCoreValues]
  · have hmem : ∀ z ∈ cleanCoreValues s, z ≠ [] ∧ pyStrip z = z ∧ '\n' ∉ z :=
      fun z hz => mem_cleanCoreValues hz
    rw [hys] at hmem
    rw [cleanCoreValues_eq_spec]
    unfold specSplitTrimDrop
    rw [pySplitNl_pyJoinNl (by simp) (fun x hx => (hmem x hx).2.2)]
    have hmap : (y :: ys).map pyStrip = y :: ys :=
      List.map_congr_left (fun x hx => (hmem x hx).2.1) |>.trans (List.map_id _)
    rw [hmap]
    exact List.filter_eq_self.mpr (fun x hx => by simp [(hmem x hx).1])

/-- C6 counterexample: for the one-element list holding the two-line
string consisting of the letter a, a newline and the letter b, joining
and cleaning yields two entries while the original list has one
non-empty trimmed entry, so the round trip preserves neither the count
nor the entries. -/
theorem join_clean_not_count_preserving :
    (cleanCoreValues (pyJoinNl [("a\nb" : String).toList])).length ≠
      ([("a\nb" : String).toList].filter
        (fun v => pyStrip v ≠ [])).length := by
  decide

/-- C6 amended: for every list of strings none of which contains a
newline character, joining with newlines and then cleaning yields
exactly the trimmed forms of the entries whose trimmed form is
non-empty, in the original order — hence a list with the same order and
the same count of non-empty trimmed entries. -/
theorem join_clean_of_no_newline (l : List Str)
    (h : ∀ x ∈ l, '\n' ∉ x) :
    cleanCoreValues (pyJoinNl l) = (l.map pyStrip).filter (fun v => v ≠ []) := by
  rcases hl : l with _ | ⟨x, xs⟩
  · simp [pyJoinNl, cleanCoreValues]
  · rw [cleanCoreValues_eq_spec]
    unfold specSplitTrimDrop
    rw [pySplitNl_pyJoinNl (by simp) (hl ▸ h)]

/-- Witness for C6 amended at a concrete two-element list with
whitespace padding and an empty entry. -/
theorem join_clean_of_no_newline_witness :
    (∀ x ∈ [(" a " : String).toList, ("" : String).toList], '\n' ∉ x) ∧
      cleanCoreValues (pyJoinNl [(" a " : String).toList,
        ("" : String).toList]) =
        ([(" a " : String).toList, ("" : String).toList].map
          pyStrip).filter (fun v => v ≠ []) :=
  ⟨by decide, join_clean_of_no_newline _ (by decide)⟩

/-! Embedding of the edit-load direction (OrganizationAdminForm
constructor, lines 27-28): set the initial value of the
core_values_text field from the newline-joined core_values list, but
only when the instance has a primary key and its core_values list is
truthy (non-empty). -/

/-- Form instance state relevant to the constructor: truthiness of the
primary key of self.instance, and the persisted core_values list. -/
structure OrgInstance where
  pk : Bool
  core_values : List Str

/-- Embedding of the constructor body: the initial value assigned to
the core_values_text field, none when the assignment is skipped. -/
def coreValuesTextInitial (inst : OrgInstance) : Option Str :=
  if inst.pk && !inst.core_values.isEmpty then
    some (pyJoinNl inst.core_values)
  else
    none

/-- C7 counterexample: for an instance with a primary key whose
persisted core_values list is empty, the constructor leaves the initial
value unset instead of presenting the empty newline-joined string. -/
theorem init_skips_empty_list :
    coreValuesTextInitial { pk := true, core_values := [] } ≠
      some (pyJoinNl []) := by
  decide

/-- C7 amended: for an instance with a primary key, the constructor
presents every non-empty persisted core_values list as its
newline-joined string in the core_values_text initial value, and leaves
the initial value unset when the persisted list is empty. -/
theorem init_presents_joined_list (inst : OrgInstance)
    (hpk : inst.pk = true) :
    (inst.core_values ≠ [] →
      coreValuesTextInitial inst = some (pyJoinNl inst.core_values)) ∧
    (inst.core_values = [] → coreValuesTextInitial inst = none) := by
  constructor
  · intro h
    simp [coreValuesTextInitial, hpk, h]
  · intro h
    simp [coreValuesTextInitial, h]

/-- Witness for C7 amended at a concrete saved instance with one core
value. -/
theorem init_presents_joined_list_witness :
    coreValuesTextInitial
        { pk := true, core_values := [("Integrity" : String).toList] } =
      some (pyJoinNl [("Integrity" : String).toList]) :=
  (init_presents_joined_list
    { pk := true, core_values := [("Integrity" : String).toList] }
    rfl).1 (by decide)

/-! Embedding of the cleaned_data mapping for the frame property of
clean. -/

/-- Value stored in the cleaned_data mapping: a string (for example the
core_values_text field) or a list of strings (the core_values field). -/
inductive CdVal where
  | str (s : Str)
  | vlist (xs : List Str)
deriving DecidableEq

/-- Model of the cleaned_data dictionary as a key-to-value mapping. -/
def CleanedData := String → Option CdVal

/-- Embedding of cleaned_data.get on the core_values_text key with
default empty string: the stored string if the key holds one, else the
empty string. -/
def cdGetText (cd : CleanedData) : Str :=
  match cd "core_values_text" with
  | some (CdVal.str s) => s
  | _ => []

/-- Embedding of OrganizationAdminForm.clean on the cleaned_data
mapping (lines 30-38): assign the core_values key from the cleaned
text and leave every other key as it was. -/
def cleanForm (cd : CleanedData) : CleanedData :=
  fun k =>
    if k = "core_values" then
      some (CdVal.vlist (cleanCoreValues (cdGetText cd)))
    else cd k

/-- C8: clean touches only the core_values entry; every other entry of
the cleaned_data mapping is returned unchanged. -/
theorem clean_frame (cd : CleanedData) (k : String)
    (h : k ≠ "core_values") : cleanForm cd k = cd k := by
  simp [cleanForm, h]

/-- Witness for C8 at the empty mapping and the name key. -/
theorem clean_frame_witness :
    ("name" : String) ≠ "core_values" ∧
      cleanForm (fun _ => none) "name" = none :=
  ⟨by decide, clean_frame (fun _ => none) "name" (by decide)⟩

/-! Embedding of the display helpers of TeamDeskPlanAdmin and
TeamDeskPlanReviewAdmin.  Nullable foreign keys become Option fields;
Python attribute access on a relation that is None raises
AttributeError, modelled as the error case of Except. -/

/-- Error raised by a Python attribute access on None. -/
inductive PyErr where
  | attributeError
deriving DecidableEq

/-- Organization row, as far as the helpers read it. -/
structure Org where
  name : String
deriving DecidableEq

/-- Team or desk row, as far as the helpers read it. -/
structure TeamDesk where
  name : String
deriving DecidableEq

/-- TeamDeskPlan row as read by the helpers: nullable organization,
team_desk and leo_eo_plan relations, the last pointing at another
plan. -/
inductive TdPlan where
  | mk (organization : Option Org) (team_desk : Option TeamDesk)
      (leo_eo_plan : Option TdPlan)

/-- Organization relation of a plan. -/
def TdPlan.organization : TdPlan → Option Org
  | .mk o _ _ => o

/-- Team or desk relation of a plan. -/
def TdPlan.team_desk : TdPlan → Option TeamDesk
  | .mk _ t _ => t

/-- Parent LEO or EO plan relation of a plan. -/
def TdPlan.leo_eo_plan : TdPlan → Option TdPlan
  | .mk _ _ p => p

/-- Django auth user, as far as get_reviewer_name reads it: the result
of get_full_name() and the username. -/
structure PyUser where
  full_name : String
  username : String
deriving DecidableEq

/-- OrganizationUser row acting as reviewer, with its nullable user
relation. -/
structure Reviewer where
  user : Option PyUser
deriving DecidableEq

/-- TeamDeskPlanReview row as read by the helpers: nullable plan and
reviewer relations. -/
structure Review where
  plan : Option TdPlan
  reviewer : Option Reviewer

/-- Embedding of TeamDeskPlanAdmin.get_team_desk_name (lines 280-281):
the team_desk name when the relation is truthy, else the sentinel. -/
def get_team_desk_name (obj : TdPlan) : Except PyErr String :=
  match obj.team_desk with
  | some td => Except.ok td.name
  | none => Except.ok "N/A"

/-- Embedding of TeamDeskPlanAdmin.get_organization_name (lines
285-286). -/
def get_organization_name (obj : TdPlan) : Except PyErr String :=
  match obj.organization with
  | some o => Except.ok o.name
  | none => Except.ok "N/A"

/-- Embedding of TeamDeskPlanAdmin.get_leo_eo_plan_name (lines
290-291): guards both the leo_eo_plan relation and its organization
before formatting. -/
def get_leo_eo_plan_name (obj : TdPlan) : Except PyErr String :=
  match obj.leo_eo_plan with
  | some p =>
    match p.organization with
    | some o => Except.ok (o.name ++ " Plan")
    | none => Except.ok "N/A"
  | none => Except.ok "N/A"

/-- Embedding of TeamDeskPlanReviewAdmin.get_plan_info (lines
322-325): guards obj.plan and obj.plan.team_desk, then reads
obj.plan.organization.name without a guard, so a plan whose
organization is None raises AttributeError. -/
def get_plan_info (obj : Review) : Except PyErr String :=
  match obj.plan with
  | some p =>
    match p.team_desk with
    | some td =>
      match p.organization with
      | some o => Except.ok (td.name ++ " (" ++ o.name ++ ")")
      | none => Except.error PyErr.attributeError
    | none => Except.ok "N/A"
  | none => Except.ok "N/A"

/-- Embedding of TeamDeskPlanReviewAdmin.get_reviewer_name (lines
329-332): guards the reviewer and its user, then returns the full name
if truthy, else the username; the Python or operator on strings picks
the first non-empty one. -/
def get_reviewer_name (obj : Review) : Except PyErr String :=
  match obj.reviewer with
  | some r =>
    match r.user with
    | some u =>
      Except.ok (if u.full_name ≠ "" then u.full_name else u.username)
    | none => Except.ok "N/A"
  | none => Except.ok "N/A"

/-- Review whose plan and team_desk are set but whose plan has no
organization: the failing input for get_plan_info. -/
def reviewMissingOrg : Review :=
  { plan := some (TdPlan.mk none (some { name := "Desk A" }) none),
    reviewer := none }

/-- C2: the claim fails on the code.  On a review whose plan and
team_desk are present but whose plan.organization is absent,
get_plan_info dereferences the absent organization and raises
AttributeError instead of returning the sentinel, while the sibling
helpers guard every hop. -/
theorem get_plan_info_missing_org_raises :
    get_plan_info reviewMissingOrg = Except.error PyErr.attributeError := by
  rfl

/-- C10: get_reviewer_name returns the full name when reviewer and
user are present and the full name is non-empty, the username when the
full name is empty, and the sentinel when the reviewer or its user is
absent. -/
theorem get_reviewer_name_spec (obj : Review) :
    (∀ r u, obj.reviewer = some r → r.user = some u →
      u.full_name ≠ "" → get_reviewer_name obj = Except.ok u.full_name) ∧
    (∀ r u, obj.reviewer = some r → r.user = some u →
      u.full_name = "" → get_reviewer_name obj = Except.ok u.username) ∧
    (obj.reviewer = none → get_reviewer_name obj = Except.ok "N/A") ∧
    (∀ r, obj.reviewer = some r → r.user = none →
      get_reviewer_name obj = Except.ok "N/A") := by
  refine ⟨?_, ?_, ?_, ?_⟩
  · intro r u hr hu hname
    simp [get_reviewer_name, hr, hu, hname]
  · intro r u hr hu hname
    simp [get_reviewer_name, hr, hu, hname]
  · intro hr
    simp [get_reviewer_name, hr]
  · intro r hr hu
    simp [get_reviewer_name, hr, hu]

/-- Review by a reviewer whose user has a non-empty full name, used as
the concrete witness input for get_reviewer_name. -/
def janeReview : Review :=
  { plan := none,
    reviewer := some ⟨some ⟨"Jane Doe", "jdoe"⟩⟩ }

/-- Witness for C10 at a concrete review with a reviewer whose user
has a non-empty full name. -/
theorem get_reviewer_name_spec_witness :
    get_reviewer_name janeReview = Except.ok "Jane Doe" :=
  (get_reviewer_name_spec janeReview).1
    ⟨some ⟨"Jane Doe", "jdoe"⟩⟩ ⟨"Jane Doe", "jdoe"⟩
    rfl rfl (by decide)

/-! Embedding of the operation lists of migrations 0013 and 0016
(src/organizations/migrations). -/

/-- Field specification carried by a migration operation, as the two
shown migrations use it: a many-to-many relation or a JSON column. -/
inductive DjangoField where
  | manyToMany (blank : Bool) (help_text related_name to_model : String)
  | jsonField (blank null : Bool) (help_text : String)
deriving DecidableEq

/-- Schema migration operation kinds. -/
inductive MigrationOp where
  | addField (model_name field_name : String) (field : DjangoField)
  | removeField (model_name field_name : String)
  | alterField (model_name field_name : String) (field : DjangoField)
deriving DecidableEq

/-- An operation is an add-column operation. -/
def MigrationOp.isAddField : MigrationOp → Bool
  | .addField _ _ _ => true
  | _ => false

/-- Operations of migration 0013_plan_selected_objectives. -/
def migration0013_operations : List MigrationOp :=
  [MigrationOp.addField "plan" "selected_objectives"
    (DjangoField.manyToMany true
      "All objectives selected for this plan"
      "selected_in_plans"
      "organizations.strategicobjective")]

/-- Operations of migration 0016_plan_selected_objectives_weights. -/
def migration0016_operations : List MigrationOp :=
  [MigrationOp.addField "plan" "selected_objectives_weights"
    (DjangoField.jsonField true true
      "Custom weights assigned by planner for each selected objective \x7bobjective_id: weight\x7d")]

/-- C9: both shown migrations consist solely of add-column operations;
migration 0013 adds the many-to-many selected_objectives relation to
the plan entity and migration 0016 adds the nullable JSON-typed
selected_objectives_weights column to the plan entity. -/
theorem migrations_additive_only :
    migration0013_operations.all MigrationOp.isAddField = true ∧
    migration0016_operations.all MigrationOp.isAddField = true ∧
    (∃ b h r t, migration0013_operations =
      [MigrationOp.addField "plan" "selected_objectives"
        (DjangoField.manyToMany b h r t)]) ∧
    (∃ b h, migration0016_operations =
      [MigrationOp.addField "plan" "selected_objectives_weights"
        (DjangoField.jsonField b true h)]) :=
  ⟨rfl, rfl, ⟨_, _, _, _, rfl⟩, ⟨_, _, rfl⟩⟩

end Cpms
